import Mathlib

/-!
Verification development for the exchange-rate-monitor repository
(`src/exchange_monitor.py`).

The definitions below are a shallow embedding of the command-driven
configuration adjustment engine of `ExchangeRateMonitor`:

* the rate-condition data model (currency entries with per-rate-type
  min/max conditions, i.e. the loosely typed `config["currencies"]`
  structure),
* `_apply_adjustments` (the mutation applier, lines 338-398),
* `_parse_adjustment_commands` (the regex command parser, lines 254-336),
* `_check_conditions` (the threshold evaluator, lines 101-152),
* the adjustment phase of `monitor` (lines 505-560).

Python dicts are modelled as insertion-ordered association lists, numeric
threshold values as exact rationals (the source uses `float`; no claim
here depends on binary rounding), and the `float(...)` conversion that can
raise `ValueError` as an `Option`/`Except` value.  Inputs are taken to be
ASCII, matching every command format the source documents, so `\w`, `\s`
and `str.strip()` are modelled with their ASCII character classes.
-/

set_option maxRecDepth 10000

/-- A per-rate-type condition dict: key `min` / key `max` present or
absent.  Mirrors the `{'min': .., 'max': ..}` dicts stored at
`config['currencies'][i]['conditions'][rate_type]`. -/
structure Condition where
  min : Option ℚ
  max : Option ℚ
deriving DecidableEq

def emptyCond : Condition := Condition.mk none none

/-- The two condition-dict keys a `REMOVE` command can name. -/
inductive CondField
  | min
  | max
deriving DecidableEq

def condGet : CondField → Condition → Option ℚ
  | CondField.min, c => c.min
  | CondField.max, c => c.max

/-- Deletion `del condition[field]` on a condition dict. -/
def condDel : CondField → Condition → Condition
  | CondField.min, c => Condition.mk none c.max
  | CondField.max, c => Condition.mk c.min none

/-- One entry of `config['currencies']`: a dict with `name`, `code` and a
`conditions` dict keyed by rate-type strings. -/
structure Currency where
  name : String
  code : String
  conditions : List (String × Condition)
deriving DecidableEq

/-- The part of the loaded configuration the adjustment engine reads and
writes: the `currencies` list. -/
structure Config where
  currencies : List Currency
deriving DecidableEq

/-- First-match lookup in an insertion-ordered dict (Python dict keys are
unique, so first match is the match). -/
def lookupA (l : List (String × Condition)) (k : String) : Option Condition :=
  match l with
  | [] => none
  | p :: t => if p.1 = k then some p.2 else lookupA t k

/-- Assignment `d[k] = v` on an insertion-ordered dict: overwrite in place if the key
exists, else append at the end. -/
def setA (l : List (String × Condition)) (k : String) (v : Condition) :
    List (String × Condition) :=
  match l with
  | [] => [(k, v)]
  | p :: t => if p.1 = k then (k, v) :: t else p :: setA t k v

/-- Lines 368-369: `if rate_type not in conditions: conditions[rate_type] = {}`. -/
def ensureA (l : List (String × Condition)) (k : String) :
    List (String × Condition) :=
  if (lookupA l k).isSome then l else l ++ [(k, emptyCond)]

/-- A parsed adjustment command (the dicts built by
`_parse_adjustment_commands`): `action` is `'adjust'`, `'set'` or
`'remove'`; `adjust`/`set` carry a `conditions` dict with optional `min`
and `max` keys, `remove` carries a `condition_type` key. -/
inductive Mutation
  | adjust (currency_code rate_type : String) (conditions : Condition)
  | set (currency_code rate_type : String) (conditions : Condition)
  | remove (currency_code rate_type : String) (condition_type : CondField)
deriving DecidableEq

def mutationCode : Mutation → String
  | Mutation.adjust c _ _ => c
  | Mutation.set c _ _ => c
  | Mutation.remove c _ _ => c

def mutationRateType : Mutation → String
  | Mutation.adjust _ r _ => r
  | Mutation.set _ r _ => r
  | Mutation.remove _ r _ => r

/-- Lines 352-358: the `for i, currency in enumerate(self.config['currencies'])`
loop that resolves a currency code to its index and entry (first match wins). -/
def findCurrency : List Currency → String → Option (Nat × Currency)
  | [], _ => none
  | cu :: t, c =>
      if cu.code = c then some (0, cu)
      else (findCurrency t c).map (fun p => (p.1 + 1, p.2))

/-- Lookup `next((c for c in self.config["currencies"] if c["name"] == name), None)`
(lines 104-106). -/
def findName : List Currency → String → Option Currency
  | [], _ => none
  | cu :: t, n => if cu.name = n then some cu else findName t n

/-- Field-wise overwrite used by the `adjust` action: a present patch
field replaces the stored field, an absent one leaves it untouched. -/
def overrideField (patch old : Option ℚ) : Option ℚ :=
  match patch with
  | some v => some v
  | none => old

/-- Lines 371-376: `for condition_type, value in adjustment['conditions'].items():
conditions[rate_type][condition_type] = value`. -/
def patchCondition (c0 patch : Condition) : Condition :=
  Condition.mk (overrideField patch.min c0.min) (overrideField patch.max c0.max)

/-- One iteration of the `for adjustment in adjustments` loop of
`_apply_adjustments` (lines 345-393): resolve the code (skip with a
warning when unresolved), lazily create the rate-type's condition dict,
then dispatch on the action.  Returns the updated configuration and
whether this iteration set `config_modified = True`. -/
def applyOne (cfg : Config) (m : Mutation) : Config × Bool :=
  match findCurrency cfg.currencies (mutationCode m) with
  | none => (cfg, false)
  | some (i, cu) =>
      let rt := mutationRateType m
      let conds := ensureA cu.conditions rt
      let c0 := (lookupA conds rt).getD emptyCond
      match m with
      | Mutation.adjust _ _ patch =>
          let fired := patch.min.isSome || patch.max.isSome
          (Config.mk (cfg.currencies.set i
            (Currency.mk cu.name cu.code (setA conds rt (patchCondition c0 patch)))),
           fired)
      | Mutation.set _ _ repl =>
          (Config.mk (cfg.currencies.set i
            (Currency.mk cu.name cu.code (setA conds rt repl))), true)
      | Mutation.remove _ _ f =>
          if (condGet f c0).isSome then
            (Config.mk (cfg.currencies.set i
              (Currency.mk cu.name cu.code (setA conds rt (condDel f c0)))), true)
          else
            (Config.mk (cfg.currencies.set i
              (Currency.mk cu.name cu.code conds)), false)

/-- The applier loop with the running `config_modified` flag. -/
def applyGo : Config → Bool → List Mutation → Config × Bool
  | cfg, acc, [] => (cfg, acc)
  | cfg, acc, m :: t =>
      let r := applyOne cfg m
      applyGo r.1 (acc || r.2) t

/-- Result of `_apply_adjustments`: the mutated configuration, the
returned `config_modified` flag, and whether `self._save_config()` was
invoked (lines 395-396). -/
structure ApplyResult where
  config : Config
  modified : Bool
  saveCalled : Bool
deriving DecidableEq

/-- Model of `_apply_adjustments` (lines 338-398).  `if not adjustments: return False`
short-circuits the empty list; otherwise the loop runs and
`_save_config()` is called exactly when `config_modified` ended up true. -/
def applyAdjustmentsFull (cfg : Config) (adjs : List Mutation) : ApplyResult :=
  if adjs.isEmpty then ApplyResult.mk cfg false false
  else
    let r := applyGo cfg false adjs
    ApplyResult.mk r.1 r.2 r.2

/-- Folding the applier over a mutation list, discarding the flag (used to
speak about the configuration state reached before the `i`-th mutation). -/
def applyList : Config → List Mutation → Config
  | cfg, [] => cfg
  | cfg, m :: t => applyList (applyOne cfg m).1 t

/-- Whether one mutation, applied to the given configuration state, sets
`config_modified = True`: an `adjust` with a resolvable code and at least
one patch field, a `set` with a resolvable code, or a `remove` with a
resolvable code whose named field is present in the existing condition
dict for that rate type. -/
def fires (cfg : Config) : Mutation → Bool
  | Mutation.adjust code _ patch =>
      (findCurrency cfg.currencies code).isSome && (patch.min.isSome || patch.max.isSome)
  | Mutation.set code _ _ => (findCurrency cfg.currencies code).isSome
  | Mutation.remove code rt f =>
      match findCurrency cfg.currencies code with
      | none => false
      | some p =>
          match lookupA p.2.conditions rt with
          | none => false
          | some c => (condGet f c).isSome

/-- Which side of a condition an alert reports: the source formats a
"Below Minimum" or "Above Maximum" HTML block (lines 120-147). -/
inductive BoundKind
  | below_min
  | above_max
deriving DecidableEq

/-- The data interpolated into one alert block by `_check_conditions`:
currency name, rate type, the observed rate, the violated threshold,
which bound was violated, and the observation timestamp string. -/
structure Alert where
  currency_name : String
  rate_type : String
  current_rate : ℚ
  boundary : ℚ
  kind : BoundKind
  time : String
deriving DecidableEq

/-- One row of the fetched rates dict (built at lines 81-87): the four
numeric rate fields (each possibly `None`) plus the timestamp string. -/
structure RateRecord where
  spot_buying_rate : Option ℚ
  cash_buying_rate : Option ℚ
  spot_selling_rate : Option ℚ
  cash_selling_rate : Option ℚ
  time : String
deriving DecidableEq

/-- Lookup `current_rates.get(rate_type)` (line 115): the four numeric keys of a
rate row; any other key yields `None`.  (The only further key of the
source dict is `"time"`, whose string value no condition in the model
compares against.) -/
def RateRecord.getRate (r : RateRecord) (rt : String) : Option ℚ :=
  if rt = "spot_buying_rate" then r.spot_buying_rate
  else if rt = "cash_buying_rate" then r.cash_buying_rate
  else if rt = "spot_selling_rate" then r.spot_selling_rate
  else if rt = "cash_selling_rate" then r.cash_selling_rate
  else none

/-- The canonical rate-type enumeration: the four keys `_parse_rates`
produces and the reply-command examples use. -/
def rateTypes : List String :=
  ["spot_buying_rate", "cash_buying_rate", "spot_selling_rate", "cash_selling_rate"]

/-- The `for rate_type, condition in conditions.items()` loop of
`_check_conditions` (lines 114-150): skip a `None` observed value, then
`if "min" in condition and rate < min` emit the below-minimum block,
`elif "max" in condition and rate > max` emit the above-maximum block. -/
def alertsFor (nm tm : String) (rec : RateRecord) :
    List (String × Condition) → List Alert
  | [] => []
  | (rt, cond) :: t =>
      let rest := alertsFor nm tm rec t
      match rec.getRate rt with
      | none => rest
      | some v =>
          match cond.min with
          | some m =>
              if v < m then Alert.mk nm rt v m BoundKind.below_min tm :: rest
              else
                match cond.max with
                | some M => if M < v then Alert.mk nm rt v M BoundKind.above_max tm :: rest else rest
                | none => rest
          | none =>
              match cond.max with
              | some M => if M < v then Alert.mk nm rt v M BoundKind.above_max tm :: rest else rest
              | none => rest

/-- Model of `_check_conditions(currency_name, rates)` (lines 101-152), with the
rate row for `currency_name` passed directly (the caller guarantees the
name is present in `rates`, line 532). -/
def checkConditions (cfg : Config) (nm : String) (rec : RateRecord) : List Alert :=
  match findName cfg.currencies nm with
  | none => []
  | some cu => alertsFor nm rec.time rec cu.conditions

/-- Membership lookup `currency_name in rates` over the fetched rates dict. -/
def lookupRates : List (String × RateRecord) → String → Option RateRecord
  | [], _ => none
  | p :: t, n => if p.1 = n then some p.2 else lookupRates t n

/-- The evaluation loop of `monitor` (lines 529-537): currencies whose
name has no fetched rate row are skipped, the others contribute their
`_check_conditions` alerts in order. -/
def monitorEvaluateGo (cfg : Config) (rates : List (String × RateRecord)) :
    List Currency → List Alert
  | [] => []
  | cu :: t =>
      (match lookupRates rates cu.name with
       | none => []
       | some rec => checkConditions cfg cu.name rec) ++ monitorEvaluateGo cfg rates t

def monitorEvaluate (cfg : Config) (rates : List (String × RateRecord)) : List Alert :=
  monitorEvaluateGo cfg rates cfg.currencies

/-- The externally visible effects of the adjustment phase of one
`monitor` cycle: a configuration save, a confirmation email, a git
commit+push of the configuration. -/
structure CycleEffects where
  saved : Bool
  confirmationSent : Bool
  committed : Bool
deriving DecidableEq

/-- Lines 511-518 of `monitor`: `if adjustments:` run the applier (which
itself saves when modified), and `if config_modified:` send the
confirmation and commit the changes. -/
def monitorAdjustPhase (cfg : Config) (adjs : List Mutation) : Config × CycleEffects :=
  if adjs.isEmpty then (cfg, CycleEffects.mk false false false)
  else
    let r := applyAdjustmentsFull cfg adjs
    (r.config, CycleEffects.mk r.saveCalled r.modified r.modified)

structure CycleResult where
  config : Config
  effects : CycleEffects
  alerts : List Alert
deriving DecidableEq

/-- One `monitor` cycle restricted to the in-scope components: the
adjustment phase followed by threshold evaluation over the fetched
rates.  Evaluation only reads the configuration. -/
def monitorCycle (cfg : Config) (adjs : List Mutation)
    (rates : List (String × RateRecord)) : CycleResult :=
  let p := monitorAdjustPhase cfg adjs
  CycleResult.mk p.1 p.2 (monitorEvaluate p.1 rates)

/-- Python `\s` restricted to ASCII: the six whitespace characters. -/
def pyIsSpace (c : Char) : Bool :=
  c = ' ' || c = '\t' || c = '\n' || c = '\r' || c = '\u000B' || c = '\u000C'

/-- Python `\w` restricted to ASCII: letters, digits, underscore. -/
def pyIsWord (c : Char) : Bool :=
  c.isAlphanum || c = '_'

/-- The character class `[\d.]` of the NUMBER token. -/
def pyIsNumChar (c : Char) : Bool :=
  c.isDigit || c = '.'

/-- Case-insensitive literal prefix match (the patterns are compiled with
`re.IGNORECASE`); returns the remaining suffix on success. -/
def stripCI : List Char → List Char → Option (List Char)
  | [], s => some s
  | _ :: _, [] => none
  | k :: kt, c :: ct => if c.toLower = k.toLower then stripCI kt ct else none

/-- One alternative of the bound group, `min\s+[\d.]+` or `max\s+[\d.]+`
(keyword passed in): keyword, one-or-more whitespace, one-or-more
digits/dots, all greedy; returns the remaining suffix. -/
def matchBoundClause (kw s : List Char) : Option (List Char) :=
  match stripCI kw s with
  | none => none
  | some s1 =>
      let w := s1.takeWhile pyIsSpace
      if w.isEmpty then none
      else
        let s2 := s1.dropWhile pyIsSpace
        let d := s2.takeWhile pyIsNumChar
        if d.isEmpty then none else some (s2.dropWhile pyIsNumChar)

/-- One repetition of `(?:min\s+[\d.]+|max\s+[\d.]+|\s+)`: the two bound
clauses are tried first (their first two characters make them mutually
exclusive), then a greedy whitespace run. -/
def boundToken (s : List Char) : Option (List Char) :=
  match matchBoundClause ['m', 'i', 'n'] s with
  | some r => some r
  | none =>
      match matchBoundClause ['m', 'a', 'x'] s with
      | some r => some r
      | none =>
          let w := s.takeWhile pyIsSpace
          if w.isEmpty then none else some (s.dropWhile pyIsSpace)

/-- Greedy repetition of `boundToken` (fuel-driven; every successful
repetition consumes at least one character, so `s.length` fuel is enough). -/
def boundSeqGo : Nat → List Char → List Char
  | 0, s => s
  | f + 1, s =>
      match boundToken s with
      | none => s
      | some r => boundSeqGo f r

/-- A successful match of `KW\s+(\w+)\s+(\w+)\s+((?:min\s+[\d.]+|max\s+[\d.]+|\s+)+)`
at the current position: the two word groups, the bound group text, and
the suffix after the match. -/
structure CmdMatch where
  g1 : List Char
  g2 : List Char
  g3 : List Char
  rest : List Char

/-- Attempt the ADJUST/SET pattern at the start of `s`.  All tokens are
greedy; because `\w`, `\s` and the bound alternatives start with disjoint
character classes, the only productive backtracking point is the last
`\s+` before the bound group: when the bound group cannot match after the
maximal whitespace run, the engine gives back one whitespace character so
that the group's `\s+` alternative matches it (possible only when the run
has length at least two), producing a bound group consisting of that
single whitespace character. -/
def matchCmdAt (kw s : List Char) : Option CmdMatch :=
  match stripCI kw s with
  | none => none
  | some s1 =>
      if (s1.takeWhile pyIsSpace).isEmpty then none
      else
        let s2 := s1.dropWhile pyIsSpace
        let g1 := s2.takeWhile pyIsWord
        if g1.isEmpty then none
        else
          let s3 := s2.dropWhile pyIsWord
          if (s3.takeWhile pyIsSpace).isEmpty then none
          else
            let s4 := s3.dropWhile pyIsSpace
            let g2 := s4.takeWhile pyIsWord
            if g2.isEmpty then none
            else
              let s5 := s4.dropWhile pyIsWord
              let w3 := s5.takeWhile pyIsSpace
              if w3.isEmpty then none
              else
                let s6 := s5.dropWhile pyIsSpace
                match boundToken s6 with
                | some r1 =>
                    let rest := boundSeqGo r1.length r1
                    some (CmdMatch.mk g1 g2 (s6.take (s6.length - rest.length)) rest)
                | none =>
                    if 2 ≤ w3.length then
                      some (CmdMatch.mk g1 g2 (w3.drop (w3.length - 1)) s6)
                    else none

/-- Scan of `re.finditer` for the ADJUST/SET pattern: try the pattern at
every position left to right; after a match, resume at its end (every
match consumes at least one character).  Fuel-driven with `s.length` fuel. -/
def finditerCmd (kw : List Char) : Nat → List Char → List (List Char × List Char × List Char)
  | 0, _ => []
  | _ + 1, [] => []
  | f + 1, c :: t =>
      match matchCmdAt kw (c :: t) with
      | some m => (m.g1, m.g2, m.g3) :: finditerCmd kw f m.rest
      | none => finditerCmd kw f t

/-- Attempt `REMOVE\s+(\w+)\s+(\w+)\s+(min|max)` at the start of `s`. -/
def matchRemoveAt (s : List Char) : Option (List Char × List Char × CondField × List Char) :=
  match stripCI ['R', 'E', 'M', 'O', 'V', 'E'] s with
  | none => none
  | some s1 =>
      if (s1.takeWhile pyIsSpace).isEmpty then none
      else
        let s2 := s1.dropWhile pyIsSpace
        let g1 := s2.takeWhile pyIsWord
        if g1.isEmpty then none
        else
          let s3 := s2.dropWhile pyIsWord
          if (s3.takeWhile pyIsSpace).isEmpty then none
          else
            let s4 := s3.dropWhile pyIsSpace
            let g2 := s4.takeWhile pyIsWord
            if g2.isEmpty then none
            else
              let s5 := s4.dropWhile pyIsWord
              if (s5.takeWhile pyIsSpace).isEmpty then none
              else
                let s6 := s5.dropWhile pyIsSpace
                match stripCI ['m', 'i', 'n'] s6 with
                | some r => some (g1, g2, CondField.min, r)
                | none =>
                    match stripCI ['m', 'a', 'x'] s6 with
                    | some r => some (g1, g2, CondField.max, r)
                    | none => none

/-- Scan of `re.finditer` for the REMOVE pattern. -/
def finditerRemove : Nat → List Char → List (List Char × List Char × CondField)
  | 0, _ => []
  | _ + 1, [] => []
  | f + 1, c :: t =>
      match matchRemoveAt (c :: t) with
      | some r => (r.1, r.2.1, r.2.2.1) :: finditerRemove f r.2.2.2
      | none => finditerRemove f t

/-- Python `str.strip()` over the ASCII whitespace set. -/
def pyStrip (s : List Char) : List Char :=
  ((s.dropWhile pyIsSpace).reverse.dropWhile pyIsSpace).reverse

/-- Match of `re.search(kw + r'\s+([\d.]+)', s, re.IGNORECASE)` at the start of a
suffix: keyword, whitespace run, then the captured greedy `[\d.]+` run. -/
def matchNumAfterKw (kw s : List Char) : Option (List Char) :=
  match stripCI kw s with
  | none => none
  | some s1 =>
      if (s1.takeWhile pyIsSpace).isEmpty then none
      else
        let s2 := s1.dropWhile pyIsSpace
        let d := s2.takeWhile pyIsNumChar
        if d.isEmpty then none else some d

/-- Search semantics of `re.search`: leftmost position where the keyword-number pattern
matches; returns the captured number token. -/
def searchNum (kw : List Char) : List Char → Option (List Char)
  | [] => none
  | c :: t =>
      match matchNumAfterKw kw (c :: t) with
      | some d => some d
      | none => searchNum kw t

def digitsToNat (ds : List Char) : Nat :=
  ds.foldl (fun acc c => acc * 10 + (c.toNat - '0'.toNat)) 0

/-- Python `float(tok)` for a token drawn from `[\d.]+`: defined exactly
when the token has at most one dot and at least one digit, with its exact
decimal value (the source stores an IEEE double; the claims checked here
do not depend on rounding). -/
def pyFloat (s : List Char) : Option ℚ :=
  if s.any Char.isDigit && (s.filter (fun c => c = '.')).length ≤ 1 then
    let ip := s.takeWhile Char.isDigit
    match s.dropWhile Char.isDigit with
    | [] => some ((digitsToNat ip : ℚ))
    | _ :: fp => some ((digitsToNat ip : ℚ) + (digitsToNat fp : ℚ) / (10 : ℚ) ^ fp.length)
  else none

def upperStr (l : List Char) : String :=
  String.mk (l.map Char.toUpper)

def lowerStr (l : List Char) : String :=
  String.mk (l.map Char.toLower)

/-- Processing of one ADJUST/SET match (lines 271-292 / 298-318): strip
the bound group, search it for `min` and `max` clauses, convert the
captured tokens with `float` (an invalid token raises `ValueError`, which
propagates out of `_parse_adjustment_commands`; the `min` conversion runs
first), and emit a mutation only when at least one bound was found. -/
def mutationOfCondMatch (mk : String → String → Condition → Mutation)
    (g1 g2 g3 : List Char) : Except Unit (Option Mutation) :=
  let cs := pyStrip g3
  let minTok := searchNum ['m', 'i', 'n'] cs
  let maxTok := searchNum ['m', 'a', 'x'] cs
  match minTok with
  | some d =>
      match pyFloat d with
      | none => Except.error ()
      | some vmin =>
          match maxTok with
          | some d2 =>
              match pyFloat d2 with
              | none => Except.error ()
              | some vmax =>
                  Except.ok (some (mk (upperStr g1) (lowerStr g2)
                    (Condition.mk (some vmin) (some vmax))))
          | none =>
              Except.ok (some (mk (upperStr g1) (lowerStr g2)
                (Condition.mk (some vmin) none)))
  | none =>
      match maxTok with
      | some d2 =>
          match pyFloat d2 with
          | none => Except.error ()
          | some vmax =>
              Except.ok (some (mk (upperStr g1) (lowerStr g2)
                (Condition.mk none (some vmax))))
      | none => Except.ok none

/-- The per-match loop body over all ADJUST (resp. SET) matches; a raised
`ValueError` aborts the whole parse. -/
def collectCond (mk : String → String → Condition → Mutation) :
    List (List Char × List Char × List Char) → Except Unit (List Mutation)
  | [] => Except.ok []
  | (g1, g2, g3) :: t =>
      match mutationOfCondMatch mk g1 g2 g3 with
      | Except.error e => Except.error e
      | Except.ok m? =>
          match collectCond mk t with
          | Except.error e => Except.error e
          | Except.ok rest =>
              Except.ok (match m? with
                | some m => m :: rest
                | none => rest)

/-- Model of `_parse_adjustment_commands(email_body)` (lines 254-336): scan the
whole body for ADJUST, then SET, then REMOVE matches, in that order, and
concatenate the resulting mutation lists.  `Except.error ()` models an
uncaught `ValueError` from `float` escaping the method. -/
def parseAdjustmentCommands (body : String) : Except Unit (List Mutation) :=
  let s := body.toList
  match collectCond Mutation.adjust (finditerCmd ['A', 'D', 'J', 'U', 'S', 'T'] s.length s) with
  | Except.error e => Except.error e
  | Except.ok adjusts =>
      match collectCond Mutation.set (finditerCmd ['S', 'E', 'T'] s.length s) with
      | Except.error e => Except.error e
      | Except.ok sets =>
          let removes := (finditerRemove s.length s).map
            (fun r => Mutation.remove (upperStr r.1) (lowerStr r.2.1) r.2.2)
          Except.ok (adjusts ++ sets ++ removes)

/-- Whether some mutation of the list sets `config_modified`, evaluated
against the configuration state current when it is applied. -/
def firesAny : Config → List Mutation → Bool
  | _, [] => false
  | cfg, m :: t => fires cfg m || firesAny (applyOne cfg m).1 t

def isAdjust : Mutation → Bool
  | Mutation.adjust _ _ _ => true
  | _ => false

def isSet : Mutation → Bool
  | Mutation.set _ _ _ => true
  | _ => false

def isRemove : Mutation → Bool
  | Mutation.remove _ _ _ => true
  | _ => false

/-- The below-minimum alert of `_check_conditions` for one condition
entry: `"min" in condition and current_rate < condition["min"]`. -/
def belowCase (nm tm rt : String) (cond : Condition) (v : ℚ) (a : Alert) : Prop :=
  ∃ m, cond.min = some m ∧ v < m ∧ a = Alert.mk nm rt v m BoundKind.below_min tm

/-- The above-maximum alert of `_check_conditions` for one condition
entry; because the source guards it with `elif`, it additionally requires
that the below-minimum branch did not fire. -/
def aboveCase (nm tm rt : String) (cond : Condition) (v : ℚ) (a : Alert) : Prop :=
  (∀ m, cond.min = some m → ¬ v < m) ∧
    ∃ M, cond.max = some M ∧ M < v ∧ a = Alert.mk nm rt v M BoundKind.above_max tm

/-- A one-currency configuration whose USD entry has only a `min` bound
on `spot_buying_rate`. -/
def cfgMinOnly : Config :=
  Config.mk [Currency.mk "US Dollar" "USD" [("spot_buying_rate", Condition.mk (some 10) none)]]

/-- A one-currency configuration whose USD entry has an empty conditions
dict. -/
def cfgNoConds : Config :=
  Config.mk [Currency.mk "US Dollar" "USD" []]

/-- A remove of a field that is absent from the (empty) conditions of the
resolvable USD entry. -/
def removeAbsentField : List Mutation :=
  [Mutation.remove "USD" "spot_buying_rate" CondField.min]

/-- A configuration whose USD `spot_buying_rate` condition has
min 10 and max 5 (the system never validates `min ≤ max`). -/
def cfgMinAboveMax : Config :=
  Config.mk [Currency.mk "US Dollar" "USD" [("spot_buying_rate", Condition.mk (some 10) (some 5))]]

/-- Fetched rates with `spot_buying_rate` 7 for the US Dollar row. -/
def recSeven : RateRecord :=
  RateRecord.mk (some 7) none none none "2024-01-01 10:00:00"

/-- A configuration matching the spec example: USD with only
`spot_buying_rate` max 735. -/
def cfgMax735 : Config :=
  Config.mk [Currency.mk "US Dollar" "USD" [("spot_buying_rate", Condition.mk none (some 735))]]

/-- Fetched rates with `spot_buying_rate` 740 for the US Dollar row. -/
def recSevenForty : RateRecord :=
  RateRecord.mk (some 740) none none none "2024-01-01 10:00:00"

/-! ### Helper lemmas about the embedded dictionary operations -/

theorem lookupA_setA_self (l : List (String × Condition)) (k : String) (v : Condition) :
    lookupA (setA l k v) k = some v := by
  induction l with
  | nil => simp [setA, lookupA]
  | cons p t ih =>
      by_cases h : p.1 = k
      · simp [setA, h, lookupA]
      · simp [setA, h, lookupA, ih]

theorem lookupA_append_of_none (l l2 : List (String × Condition)) (k : String)
    (h : lookupA l k = none) : lookupA (l ++ l2) k = lookupA l2 k := by
  induction l with
  | nil => simp
  | cons p t ih =>
      by_cases hp : p.1 = k
      · simp [lookupA, hp] at h
      · simp [lookupA, hp] at h ⊢
        exact ih h

theorem ensureA_lookup (l : List (String × Condition)) (k : String) :
    lookupA (ensureA l k) k = some ((lookupA l k).getD emptyCond) := by
  unfold ensureA
  cases h : lookupA l k with
  | none => simp [h, lookupA_append_of_none l _ k h, lookupA]
  | some c => simp [h]

theorem ensureA_of_isSome (l : List (String × Condition)) (k : String)
    (h : (lookupA l k).isSome) : ensureA l k = l := by
  unfold ensureA
  simp [h]

theorem getElem?_set_self_of_some {α : Type} :
    ∀ (l : List α) (i : Nat) (u v : α), l[i]? = some u → (l.set i v)[i]? = some v := by
  intro l
  induction l with
  | nil => intro i u v h; simp at h
  | cons a t ih =>
      intro i u v h
      cases i with
      | zero => simp
      | succ j =>
          simp at h ⊢
          exact ih j u v h

theorem findCurrency_some :
    ∀ (l : List Currency) (c : String) (i : Nat) (cu : Currency),
      findCurrency l c = some (i, cu) → l[i]? = some cu ∧ cu.code = c := by
  intro l
  induction l with
  | nil => intro c i cu h; simp [findCurrency] at h
  | cons a t ih =>
      intro c i cu h
      unfold findCurrency at h
      by_cases hc : a.code = c
      · rw [if_pos hc] at h
        have h' := Option.some.inj h
        rw [Prod.ext_iff] at h'
        obtain ⟨h1, h2⟩ := h'
        subst h1
        subst h2
        exact ⟨by simp, hc⟩
      · rw [if_neg hc] at h
        cases hf : findCurrency t c with
        | none => rw [hf] at h; simp at h
        | some p =>
            rw [hf] at h
            have h' := Option.some.inj h
            rw [Prod.ext_iff] at h'
            obtain ⟨h1, h2⟩ := h'
            obtain ⟨ih1, ih2⟩ := ih c p.1 p.2 hf
            subst h1
            subst h2
            exact ⟨by simpa using ih1, ih2⟩

theorem findCurrency_set :
    ∀ (l : List Currency) (c : String) (i : Nat) (cu : Currency),
      findCurrency l c = some (i, cu) →
      ∀ conds, findCurrency (l.set i (Currency.mk cu.name cu.code conds)) c =
        some (i, Currency.mk cu.name cu.code conds) := by
  intro l
  induction l with
  | nil => intro c i cu h; simp [findCurrency] at h
  | cons a t ih =>
      intro c i cu h conds
      unfold findCurrency at h
      by_cases hc : a.code = c
      · rw [if_pos hc] at h
        have h' := Option.some.inj h
        rw [Prod.ext_iff] at h'
        obtain ⟨h1, h2⟩ := h'
        subst h1
        subst h2
        simp [List.set, findCurrency, hc]
      · rw [if_neg hc] at h
        cases hf : findCurrency t c with
        | none => rw [hf] at h; simp at h
        | some p =>
            rw [hf] at h
            have h' := Option.some.inj h
            rw [Prod.ext_iff] at h'
            obtain ⟨h1, h2⟩ := h'
            subst h1
            subst h2
            have hrec := ih c p.1 p.2 hf conds
            simp [List.set, findCurrency, hc, hrec]

theorem condGet_condDel (f : CondField) (c : Condition) : condGet f (condDel f c) = none := by
  cases f <;> simp [condGet, condDel]

theorem condGet_emptyCond (f : CondField) : condGet f emptyCond = none := by
  cases f <;> simp [condGet, emptyCond]

theorem applyOne_snd (cfg : Config) (m : Mutation) : (applyOne cfg m).2 = fires cfg m := by
  cases m with
  | adjust code rt patch =>
      unfold applyOne fires
      cases h : findCurrency cfg.currencies code <;>
        simp [mutationCode, h]
  | set code rt repl =>
      unfold applyOne fires
      cases h : findCurrency cfg.currencies code <;>
        simp [mutationCode, h]
  | remove code rt f =>
      unfold applyOne fires
      cases h : findCurrency cfg.currencies code with
      | none => simp [mutationCode, h]
      | some p =>
          simp only [mutationCode, mutationRateType, h]
          have hl := ensureA_lookup p.2.conditions rt
          cases hc : lookupA p.2.conditions rt with
          | none =>
              rw [hc] at hl
              cases f <;> simp [hl, condGet, emptyCond]
          | some c =>
              rw [hc] at hl
              by_cases hg : (condGet f c).isSome
              · simp [hl, hg]
              · simp [hl, hg]

theorem applyGo_snd :
    ∀ (l : List Mutation) (cfg : Config) (acc : Bool),
      (applyGo cfg acc l).2 = (acc || firesAny cfg l) := by
  intro l
  induction l with
  | nil => intro cfg acc; simp [applyGo, firesAny]
  | cons m t ih =>
      intro cfg acc
      show (applyGo (applyOne cfg m).1 (acc || (applyOne cfg m).2) t).2 = _
      rw [ih, applyOne_snd]
      simp [firesAny, Bool.or_assoc]

theorem firesAny_false_iff :
    ∀ (l : List Mutation) (cfg : Config),
      firesAny cfg l = false ↔
        ∀ (i : Nat) (h : i < l.length), fires (applyList cfg (l.take i)) l[i] = false := by
  intro l
  induction l with
  | nil => intro cfg; simp [firesAny]
  | cons m t ih =>
      intro cfg
      rw [show firesAny cfg (m :: t) = (fires cfg m || firesAny (applyOne cfg m).1 t) from rfl]
      rw [Bool.or_eq_false_iff]
      rw [ih ((applyOne cfg m).1)]
      constructor
      · rintro ⟨h0, hrest⟩ i hi
        cases i with
        | zero => simpa [applyList] using h0
        | succ j =>
            have hj : j < t.length := Nat.lt_of_succ_lt_succ hi
            have := hrest j hj
            simpa [List.take_succ_cons, applyList] using this
      · intro hall
        refine ⟨?_, ?_⟩
        · simpa [applyList] using hall 0 (Nat.succ_pos _)
        · intro j hj
          have := hall (j + 1) (Nat.succ_lt_succ hj)
          simpa [List.take_succ_cons, applyList] using this

/-- Claim C1, counterexample: applying `Remove USD spot_buying_rate min`
to a model whose USD entry has the condition `{min: 10}` leaves the
`spot_buying_rate` entry in place as an empty Condition record, so a
conditions map does contain an entry whose Condition has both min and max
absent after a Remove. -/
theorem c1_remove_leaves_empty_residue_cex :
    ((applyAdjustmentsFull cfgMinOnly [Mutation.remove "USD" "spot_buying_rate" CondField.min]).config).currencies
      = [Currency.mk "US Dollar" "USD" [("spot_buying_rate", Condition.mk none none)]] := by
  decide

/-- Claim C1, amended: a `Remove` whose code resolves deletes the named
field but never prunes the Condition entry: after the application the
target rate type always has a Condition entry in the map (lazily created
as empty if it did not exist), with the named field absent. -/
theorem c1_remove_never_prunes (cfg : Config) (code rt : String) (f : CondField)
    (i : Nat) (cu : Currency) (h : findCurrency cfg.currencies code = some (i, cu)) :
    ∃ cu' c,
      ((applyAdjustmentsFull cfg [Mutation.remove code rt f]).config).currencies[i]? = some cu' ∧
      lookupA cu'.conditions rt = some c ∧ condGet f c = none := by
  obtain ⟨hget, hcode⟩ := findCurrency_some cfg.currencies code i cu h
  have hcfg : (applyAdjustmentsFull cfg [Mutation.remove code rt f]).config
      = (applyOne cfg (Mutation.remove code rt f)).1 := rfl
  rw [hcfg]
  unfold applyOne
  simp only [mutationCode, mutationRateType]
  rw [h]
  have hl := ensureA_lookup cu.conditions rt
  by_cases hg : (condGet f ((lookupA (ensureA cu.conditions rt) rt).getD emptyCond)).isSome
  · simp only [hg, if_true]
    refine ⟨Currency.mk cu.name cu.code
      (setA (ensureA cu.conditions rt) rt
        (condDel f ((lookupA (ensureA cu.conditions rt) rt).getD emptyCond))), _,
      getElem?_set_self_of_some _ _ _ _ hget, lookupA_setA_self _ _ _, condGet_condDel _ _⟩
  · simp only [hg, if_false, Bool.false_eq_true]
    refine ⟨Currency.mk cu.name cu.code (ensureA cu.conditions rt),
      (lookupA cu.conditions rt).getD emptyCond,
      getElem?_set_self_of_some _ _ _ _ hget, ?_, ?_⟩
    · exact hl
    · rw [hl] at hg
      simpa using hg

/-- Witness for C1's amended theorem at a concrete model. -/
theorem c1_remove_never_prunes_witness :
    ∃ cu' c,
      ((applyAdjustmentsFull cfgMinOnly [Mutation.remove "USD" "spot_buying_rate" CondField.min]).config).currencies[0]? = some cu' ∧
      lookupA cu'.conditions "spot_buying_rate" = some c ∧ condGet CondField.min c = none :=
  c1_remove_never_prunes cfgMinOnly "USD" "spot_buying_rate" CondField.min 0
    (Currency.mk "US Dollar" "USD" [("spot_buying_rate", Condition.mk (some 10) none)])
    (by decide)

/-- Claim C2, counterexample: a nonempty mutation list whose single
mutation resolves to a Currency Entry (so it is not skipped for an
unresolved code) can still leave the "model changed" flag false — a
`Remove` of a field that is absent from the entry's conditions. -/
theorem c2_flag_false_cex :
    (applyAdjustmentsFull cfgNoConds removeAbsentField).modified = false ∧
      removeAbsentField ≠ [] ∧
      ∀ m ∈ removeAbsentField,
        (findCurrency cfgNoConds.currencies (mutationCode m)).isSome = true := by
  decide

/-- Claim C2, amended: the returned "model changed" flag is false exactly
when no mutation of the list effects a change at its point of
application — each is skipped for an unresolved code, or is an `Adjust`
whose patch has no fields, or is a `Remove` whose named field is absent
from the target's conditions when it is applied (`fires` spells out these
three cases). -/
theorem c2_modified_flag_iff (cfg : Config) (adjs : List Mutation) :
    (applyAdjustmentsFull cfg adjs).modified = false ↔
      ∀ (i : Nat) (h : i < adjs.length), fires (applyList cfg (adjs.take i)) adjs[i] = false := by
  unfold applyAdjustmentsFull
  cases adjs with
  | nil => simp
  | cons m t =>
      simp only [List.isEmpty_cons, if_false, Bool.false_eq_true]
      rw [applyGo_snd]
      simp only [Bool.false_or]
      exact firesAny_false_iff (m :: t) cfg

/-- Witness for C2's amended theorem at a concrete model and list. -/
theorem c2_modified_flag_iff_witness :
    (applyAdjustmentsFull cfgNoConds removeAbsentField).modified = false :=
  (c2_modified_flag_iff cfgNoConds removeAbsentField).mpr (by decide)

/-- Persistence call: `_save_config()` is invoked inside `_apply_adjustments` precisely when
the loop set `config_modified` (lines 395-396). -/
theorem saveCalled_eq_modified (cfg : Config) (adjs : List Mutation) :
    (applyAdjustmentsFull cfg adjs).saveCalled = (applyAdjustmentsFull cfg adjs).modified := by
  unfold applyAdjustmentsFull
  by_cases h : adjs.isEmpty <;> simp [h]

/-- Claim C9, counterexample: the Mutation Applier does perform
persistence itself — applying a resolvable `Set` makes
`_apply_adjustments` invoke `_save_config()` before returning. -/
theorem c9_applier_saves_cex :
    (applyAdjustmentsFull cfgNoConds
      [Mutation.set "USD" "spot_buying_rate" (Condition.mk none (some 100))]).saveCalled = true := by
  decide

/-- Claim C9, amended: the Mutation Applier's only effect beyond the
in-memory model (and logging) is that it itself persists the
configuration, calling the save exactly when the "model changed" flag is
true; the Orchestrator is not the sole persister. -/
theorem c9_save_iff_modified (cfg : Config) (adjs : List Mutation) :
    (applyAdjustmentsFull cfg adjs).saveCalled = (applyAdjustmentsFull cfg adjs).modified :=
  saveCalled_eq_modified cfg adjs

/-- Claim C3 (confirmed): `Set` followed by `Adjust` on the same code and
rate type yields exactly the replacement overwritten by the present
fields of the patch; fields absent from both are absent in the result,
and a field absent from the replacement is removed even if previously
set (the result does not depend on the prior Condition at all). -/
theorem c3_set_then_adjust (cfg : Config) (code rt : String) (repl patch : Condition)
    (i : Nat) (cu : Currency) (h : findCurrency cfg.currencies code = some (i, cu)) :
    ∃ cu',
      ((applyAdjustmentsFull cfg
          [Mutation.set code rt repl, Mutation.adjust code rt patch]).config).currencies[i]?
        = some cu' ∧
      lookupA cu'.conditions rt =
        some (Condition.mk (overrideField patch.min repl.min) (overrideField patch.max repl.max)) := by
  obtain ⟨hget, hcode⟩ := findCurrency_some cfg.currencies code i cu h
  have hfind1 := findCurrency_set cfg.currencies code i cu h
    (setA (ensureA cu.conditions rt) rt repl)
  have hcfg : (applyAdjustmentsFull cfg
      [Mutation.set code rt repl, Mutation.adjust code rt patch]).config
      = (applyOne (applyOne cfg (Mutation.set code rt repl)).1 (Mutation.adjust code rt patch)).1 := rfl
  rw [hcfg]
  have h1 : (applyOne cfg (Mutation.set code rt repl)).1
      = Config.mk (cfg.currencies.set i
          (Currency.mk cu.name cu.code (setA (ensureA cu.conditions rt) rt repl))) := by
    unfold applyOne
    simp only [mutationCode, mutationRateType]
    rw [h]
  rw [h1]
  unfold applyOne
  simp only [mutationCode, mutationRateType]
  rw [hfind1]
  have hens : ensureA (setA (ensureA cu.conditions rt) rt repl) rt
      = setA (ensureA cu.conditions rt) rt repl :=
    ensureA_of_isSome _ _ (by rw [lookupA_setA_self]; rfl)
  simp only [hens, lookupA_setA_self, Option.getD_some]
  refine ⟨Currency.mk cu.name cu.code
      (setA (setA (ensureA cu.conditions rt) rt repl) rt (patchCondition repl patch)), ?_, ?_⟩
  · exact getElem?_set_self_of_some _ _ _ _
      (getElem?_set_self_of_some _ _ _ _ hget)
  · rw [lookupA_setA_self]
    rfl

/-- Witness for C3 at the claim's concrete instance: `Set {max: 100}`
then `Adjust {min: 10}` yields the Condition `{min: 10, max: 100}`. -/
theorem c3_set_then_adjust_witness :
    ∃ cu',
      ((applyAdjustmentsFull cfgMinOnly
          [Mutation.set "USD" "spot_buying_rate" (Condition.mk none (some 100)),
           Mutation.adjust "USD" "spot_buying_rate" (Condition.mk (some 10) none)]).config).currencies[0]?
        = some cu' ∧
      lookupA cu'.conditions "spot_buying_rate" = some (Condition.mk (some 10) (some 100)) :=
  c3_set_then_adjust cfgMinOnly "USD" "spot_buying_rate"
    (Condition.mk none (some 100)) (Condition.mk (some 10) none) 0
    (Currency.mk "US Dollar" "USD" [("spot_buying_rate", Condition.mk (some 10) none)])
    (by decide)

/-- Claim C8 (confirmed): applying an empty mutation list yields
"model changed" false, and whenever the flag is false, the adjustment
phase of a cycle performs no configuration save, no confirmation email
and no audit commit. -/
theorem c8_no_effects_when_unmodified :
    (∀ (cfg : Config) (adjs : List Mutation),
        (applyAdjustmentsFull cfg adjs).modified = false →
        (monitorAdjustPhase cfg adjs).2 = CycleEffects.mk false false false) ∧
      ∀ cfg : Config, (applyAdjustmentsFull cfg []).modified = false := by
  constructor
  · intro cfg adjs hmod
    unfold monitorAdjustPhase
    by_cases he : adjs.isEmpty
    · simp [he]
    · have hsave := saveCalled_eq_modified cfg adjs
      rw [hmod] at hsave
      simp [he, hsave, hmod]
  · intro cfg
    simp [applyAdjustmentsFull]

/-- Witness for C8: at a concrete model and a nonempty no-op list the
flag is false and no save, confirmation or commit happens. -/
theorem c8_no_effects_when_unmodified_witness :
    (monitorAdjustPhase cfgNoConds removeAbsentField).2 = CycleEffects.mk false false false :=
  c8_no_effects_when_unmodified.1 cfgNoConds removeAbsentField (by decide)

/-- Claim C10 (confirmed): the Threshold Evaluator only reads the model.
The configuration a cycle ends with equals the configuration the
adjustment phase produced, whatever the fetched rates are: evaluating
conditions changes no Currency Entry. -/
theorem c10_evaluator_frame (cfg : Config) (adjs : List Mutation)
    (rates rates2 : List (String × RateRecord)) :
    (monitorCycle cfg adjs rates).config = (monitorAdjustPhase cfg adjs).1 ∧
      (monitorCycle cfg adjs rates).config = (monitorCycle cfg adjs rates2).config ∧
      (monitorCycle cfg adjs rates).alerts
        = monitorEvaluate (monitorAdjustPhase cfg adjs).1 rates :=
  ⟨rfl, rfl, rfl⟩

theorem exists_pair_mem_cons {Q : String → Condition → Prop} (rt0 : String)
    (cond0 : Condition) (t : List (String × Condition)) :
    (∃ rt cond, (rt, cond) ∈ (rt0, cond0) :: t ∧ Q rt cond) ↔
      (Q rt0 cond0 ∨ ∃ rt cond, (rt, cond) ∈ t ∧ Q rt cond) := by
  constructor
  · rintro ⟨rt, cond, hmem, hq⟩
    rcases List.mem_cons.mp hmem with heq | hm
    · injection heq with h1 h2
      subst h1
      subst h2
      exact Or.inl hq
    · exact Or.inr ⟨rt, cond, hm, hq⟩
  · rintro (hq | ⟨rt, cond, hm, hq⟩)
    · exact ⟨rt0, cond0, List.mem_cons_self _ _, hq⟩
    · exact ⟨rt, cond, List.mem_cons_of_mem _ hm, hq⟩

theorem alertsFor_mem (nm tm : String) (rec : RateRecord) :
    ∀ (l : List (String × Condition)) (a : Alert),
      a ∈ alertsFor nm tm rec l ↔
        ∃ rt cond, (rt, cond) ∈ l ∧ ∃ v, rec.getRate rt = some v ∧
          (belowCase nm tm rt cond v a ∨ aboveCase nm tm rt cond v a) := by
  intro l
  induction l with
  | nil => intro a; simp [alertsFor]
  | cons p t ih =>
      intro a
      obtain ⟨rt0, cond0⟩ := p
      rw [exists_pair_mem_cons rt0 cond0 t, ← ih a]
      cases hv : rec.getRate rt0 with
      | none =>
          have hlist : alertsFor nm tm rec ((rt0, cond0) :: t) = alertsFor nm tm rec t := by
            simp [alertsFor, hv]
          rw [hlist]
          simp
      | some v0 =>
          simp only [Option.some.injEq, exists_eq_left']
          cases hm : cond0.min with
          | some m0 =>
              by_cases hlt : v0 < m0
              · have hlist : alertsFor nm tm rec ((rt0, cond0) :: t)
                    = Alert.mk nm rt0 v0 m0 BoundKind.below_min tm :: alertsFor nm tm rec t := by
                  simp [alertsFor, hv, hm, hlt]
                have hhead : (belowCase nm tm rt0 cond0 v0 a ∨ aboveCase nm tm rt0 cond0 v0 a)
                    ↔ a = Alert.mk nm rt0 v0 m0 BoundKind.below_min tm := by
                  constructor
                  · rintro (⟨m, hm2, _, haeq⟩ | ⟨hnb, _⟩)
                    · rw [hm] at hm2
                      rw [Option.some.inj hm2]
                      exact haeq
                    · exact absurd hlt (hnb m0 hm)
                  · intro haeq
                    exact Or.inl ⟨m0, hm, hlt, haeq⟩
                rw [hlist, List.mem_cons, hhead]
              · have hnobelow : ¬ belowCase nm tm rt0 cond0 v0 a := by
                  rintro ⟨m, hm2, hlt2, _⟩
                  rw [hm] at hm2
                  rw [← Option.some.inj hm2] at hlt2
                  exact hlt hlt2
                cases hM : cond0.max with
                | some M0 =>
                    by_cases hgt : M0 < v0
                    · have hlist : alertsFor nm tm rec ((rt0, cond0) :: t)
                          = Alert.mk nm rt0 v0 M0 BoundKind.above_max tm :: alertsFor nm tm rec t := by
                        simp [alertsFor, hv, hm, hlt, hM, hgt]
                      have hhead : (belowCase nm tm rt0 cond0 v0 a ∨ aboveCase nm tm rt0 cond0 v0 a)
                          ↔ a = Alert.mk nm rt0 v0 M0 BoundKind.above_max tm := by
                        constructor
                        · rintro (hb | ⟨_, M, hM2, _, haeq⟩)
                          · exact absurd hb hnobelow
                          · rw [hM] at hM2
                            rw [Option.some.inj hM2]
                            exact haeq
                        · intro haeq
                          refine Or.inr ⟨?_, M0, hM, hgt, haeq⟩
                          intro m hm2
                          rw [hm] at hm2
                          rw [← Option.some.inj hm2]
                          exact hlt
                      rw [hlist, List.mem_cons, hhead]
                    · have hlist : alertsFor nm tm rec ((rt0, cond0) :: t) = alertsFor nm tm rec t := by
                        simp [alertsFor, hv, hm, hlt, hM, hgt]
                      have hno : ¬ (belowCase nm tm rt0 cond0 v0 a ∨ aboveCase nm tm rt0 cond0 v0 a) := by
                        rintro (hb | ⟨_, M, hM2, hgt2, _⟩)
                        · exact hnobelow hb
                        · rw [hM] at hM2
                          rw [← Option.some.inj hM2] at hgt2
                          exact hgt hgt2
                      rw [hlist]
                      simp only [hno, false_or]
                | none =>
                    have hlist : alertsFor nm tm rec ((rt0, cond0) :: t) = alertsFor nm tm rec t := by
                      simp [alertsFor, hv, hm, hlt, hM]
                    have hno : ¬ (belowCase nm tm rt0 cond0 v0 a ∨ aboveCase nm tm rt0 cond0 v0 a) := by
                      rintro (hb | ⟨_, M, hM2, _, _⟩)
                      · exact hnobelow hb
                      · rw [hM] at hM2
                        exact absurd hM2 (by simp)
                    rw [hlist]
                    simp only [hno, false_or]
          | none =>
              have hnobelow : ¬ belowCase nm tm rt0 cond0 v0 a := by
                rintro ⟨m, hm2, _, _⟩
                rw [hm] at hm2
                exact absurd hm2 (by simp)
              cases hM : cond0.max with
              | some M0 =>
                  by_cases hgt : M0 < v0
                  · have hlist : alertsFor nm tm rec ((rt0, cond0) :: t)
                        = Alert.mk nm rt0 v0 M0 BoundKind.above_max tm :: alertsFor nm tm rec t := by
                      simp [alertsFor, hv, hm, hM, hgt]
                    have hhead : (belowCase nm tm rt0 cond0 v0 a ∨ aboveCase nm tm rt0 cond0 v0 a)
                        ↔ a = Alert.mk nm rt0 v0 M0 BoundKind.above_max tm := by
                      constructor
                      · rintro (hb | ⟨_, M, hM2, _, haeq⟩)
                        · exact absurd hb hnobelow
                        · rw [hM] at hM2
                          rw [Option.some.inj hM2]
                          exact haeq
                      · intro haeq
                        refine Or.inr ⟨?_, M0, hM, hgt, haeq⟩
                        intro m hm2
                        rw [hm] at hm2
                        exact absurd hm2 (by simp)
                    rw [hlist, List.mem_cons, hhead]
                  · have hlist : alertsFor nm tm rec ((rt0, cond0) :: t) = alertsFor nm tm rec t := by
                      simp [alertsFor, hv, hm, hM, hgt]
                    have hno : ¬ (belowCase nm tm rt0 cond0 v0 a ∨ aboveCase nm tm rt0 cond0 v0 a) := by
                      rintro (hb | ⟨_, M, hM2, hgt2, _⟩)
                      · exact hnobelow hb
                      · rw [hM] at hM2
                        rw [← Option.some.inj hM2] at hgt2
                        exact hgt hgt2
                    rw [hlist]
                    simp only [hno, false_or]
              | none =>
                  have hlist : alertsFor nm tm rec ((rt0, cond0) :: t) = alertsFor nm tm rec t := by
                    simp [alertsFor, hv, hm, hM]
                  have hno : ¬ (belowCase nm tm rt0 cond0 v0 a ∨ aboveCase nm tm rt0 cond0 v0 a) := by
                    rintro (hb | ⟨_, M, hM2, _, _⟩)
                    · exact hnobelow hb
                    · rw [hM] at hM2
                      exact absurd hM2 (by simp)
                  rw [hlist]
                  simp only [hno, false_or]

/-- Claim C7, counterexample: with the condition `{min: 10, max: 5}` on
`spot_buying_rate` and observed value 7, `max` is present and the
observed value exceeds it, yet no above_max event is emitted — the
`elif` suppresses the max check once the min check fires, so the two
bounds are not evaluated independently. -/
theorem c7_elif_suppresses_above_max_cex :
    lookupA (Currency.mk "US Dollar" "USD"
        [("spot_buying_rate", Condition.mk (some 10) (some 5))]).conditions "spot_buying_rate"
      = some (Condition.mk (some 10) (some 5)) ∧
    recSeven.getRate "spot_buying_rate" = some 7 ∧ (5 : ℚ) < 7 ∧
    checkConditions cfgMinAboveMax "US Dollar" recSeven
      = [Alert.mk "US Dollar" "spot_buying_rate" 7 10 BoundKind.below_min "2024-01-01 10:00:00"] ∧
    ∀ a ∈ checkConditions cfgMinAboveMax "US Dollar" recSeven, a.kind ≠ BoundKind.above_max := by
  decide

/-- Claim C7, amended: for a currency with a configured entry, the emitted
events are exactly: a below_min event for each condition entry whose min
is present and exceeds the non-null observed value, and an above_max
event for each condition entry whose max is present and is exceeded by
the non-null observed value, the latter only when the below_min branch
did not fire for that entry (`elif` semantics); entries with no matching
configured name and rate types with a null observed value contribute
nothing, without error. -/
theorem c7_evaluator_characterization :
    (∀ (cfg : Config) (nm : String) (rec : RateRecord) (cu : Currency),
      findName cfg.currencies nm = some cu →
      ∀ a, a ∈ checkConditions cfg nm rec ↔
        ∃ rt cond, (rt, cond) ∈ cu.conditions ∧ ∃ v, rec.getRate rt = some v ∧
          (belowCase nm rec.time rt cond v a ∨ aboveCase nm rec.time rt cond v a)) ∧
    (∀ (cfg : Config) (nm : String) (rec : RateRecord),
      findName cfg.currencies nm = none → checkConditions cfg nm rec = []) ∧
    (∀ (rates : List (String × RateRecord)) (cu : Currency),
      lookupRates rates cu.name = none → monitorEvaluate (Config.mk [cu]) rates = []) := by
  refine ⟨?_, ?_, ?_⟩
  · intro cfg nm rec cu h a
    unfold checkConditions
    rw [h]
    exact alertsFor_mem nm rec.time rec cu.conditions a
  · intro cfg nm rec h
    unfold checkConditions
    rw [h]
  · intro rates cu h
    unfold monitorEvaluate monitorEvaluateGo
    rw [h]
    rfl

/-- Witness for C7's amended theorem, matching the spec's own example:
USD with `{max: 735}` on `spot_buying_rate` against an observed 740
emits the above_max event with boundary 735 and observed 740. -/
theorem c7_evaluator_characterization_witness :
    Alert.mk "US Dollar" "spot_buying_rate" 740 735 BoundKind.above_max "2024-01-01 10:00:00"
      ∈ checkConditions cfgMax735 "US Dollar" recSevenForty := by
  have hmain := c7_evaluator_characterization.1 cfgMax735 "US Dollar" recSevenForty
      (Currency.mk "US Dollar" "USD" [("spot_buying_rate", Condition.mk none (some 735))])
      (by decide)
      (Alert.mk "US Dollar" "spot_buying_rate" 740 735 BoundKind.above_max "2024-01-01 10:00:00")
  apply hmain.mpr
  refine ⟨"spot_buying_rate", Condition.mk none (some 735), ?_⟩
  refine ⟨?_, ?_⟩
  · decide
  · refine ⟨740, ?_, ?_⟩
    · decide
    · refine Or.inr ?_
      unfold aboveCase
      refine ⟨?_, ?_⟩
      · intro m hm
        exact absurd hm (by simp)
      · exact ⟨735, rfl, by norm_num, rfl⟩

/-- Claim C4, counterexample: a NUMBER token that the pattern `[\d.]+`
matches but that is not a valid decimal (here `1.2.3`) makes the parse of
the whole message fail (an uncaught `ValueError` from `float`), rather
than skipping only that single command match. -/
theorem c4_malformed_number_aborts_cex :
    parseAdjustmentCommands "ADJUST USD spot_buying_rate min 1.2.3" = Except.error () := by
  rfl

/-- Claim C4, amended: text segments matching no command pattern are
silently ignored, and an input with one well-formed ADJUST command plus
garbled non-command text yields exactly the one valid Mutation with no
error; but a matched NUMBER token that is not a valid decimal raises an
error that aborts the entire message's parse instead of skipping the one
match. -/
theorem c4_parser_behavior :
    parseAdjustmentCommands "ADJUST USD spot_buying_rate max 740\nsome garbled line !!"
      = Except.ok [Mutation.adjust "USD" "spot_buying_rate" (Condition.mk none (some 740))] ∧
    parseAdjustmentCommands "hello there\nnothing here" = Except.ok [] ∧
    parseAdjustmentCommands "ADJUST GBP spot_selling_rate min .." = Except.error () := by
  exact ⟨rfl, rfl, rfl⟩

/-- Claim C5, counterexample: a command whose rate-type token is not one
of the four enumerated rate types is not rejected: it yields a Mutation
carrying the free-string token as its rate type. -/
theorem c5_rate_type_unvalidated_cex :
    parseAdjustmentCommands "ADJUST USD bogusrate min 5"
      = Except.ok [Mutation.adjust "USD" "bogusrate" (Condition.mk (some 5) none)] ∧
    "bogusrate" ∉ rateTypes := by
  exact ⟨rfl, by decide⟩

/-- Claim C5, amended: the parser performs no validation of the rate-type
token against the enumeration; any word token is accepted and merely
normalized to lowercase, producing a Mutation with a free-string rate
type. -/
theorem c5_rate_type_accepted :
    parseAdjustmentCommands "ADJUST USD BogusRate min 5"
      = Except.ok [Mutation.adjust "USD" "bogusrate" (Condition.mk (some 5) none)] ∧
    "bogusrate" ∉ rateTypes := by
  exact ⟨rfl, by decide⟩

theorem kinds_disjoint (m : Mutation) :
    (isAdjust m = true → isSet m = false ∧ isRemove m = false) ∧
    (isSet m = true → isAdjust m = false ∧ isRemove m = false) ∧
    (isRemove m = true → isAdjust m = false ∧ isSet m = false) := by
  cases m <;> simp [isAdjust, isSet, isRemove]

theorem mutationOfCondMatch_shape
    (mk : String → String → Condition → Mutation) (g1 g2 g3 : List Char)
    (m? : Option Mutation) (h : mutationOfCondMatch mk g1 g2 g3 = Except.ok m?)
    (m : Mutation) (hm : m? = some m) :
    ∃ a b c, m = mk a b c := by
  unfold mutationOfCondMatch at h
  cases hmin : searchNum ['m', 'i', 'n'] (pyStrip g3) with
  | some d =>
      simp only [hmin] at h
      cases hf : pyFloat d with
      | none =>
          simp only [hf] at h
          exact absurd h (by simp)
      | some vmin =>
          simp only [hf] at h
          cases hmax : searchNum ['m', 'a', 'x'] (pyStrip g3) with
          | some d2 =>
              simp only [hmax] at h
              cases hf2 : pyFloat d2 with
              | none =>
                  simp only [hf2] at h
                  exact absurd h (by simp)
              | some vmax =>
                  simp only [hf2] at h
                  rw [hm] at h
                  have h1 := Option.some.inj (Except.ok.inj h)
                  exact ⟨_, _, _, h1.symm⟩
          | none =>
              simp only [hmax] at h
              rw [hm] at h
              have h1 := Option.some.inj (Except.ok.inj h)
              exact ⟨_, _, _, h1.symm⟩
  | none =>
      simp only [hmin] at h
      cases hmax : searchNum ['m', 'a', 'x'] (pyStrip g3) with
      | some d2 =>
          simp only [hmax] at h
          cases hf2 : pyFloat d2 with
          | none =>
              simp only [hf2] at h
              exact absurd h (by simp)
          | some vmax =>
              simp only [hf2] at h
              rw [hm] at h
              have h1 := Option.some.inj (Except.ok.inj h)
              exact ⟨_, _, _, h1.symm⟩
      | none =>
          simp only [hmax] at h
          rw [hm] at h
          exact absurd (Except.ok.inj h) (by simp)

theorem collectCond_all
    (mk : String → String → Condition → Mutation) (p : Mutation → Bool)
    (hp : ∀ a b c, p (mk a b c) = true) :
    ∀ (l : List (List Char × List Char × List Char)) (ms : List Mutation),
      collectCond mk l = Except.ok ms → ∀ m ∈ ms, p m = true := by
  intro l
  induction l with
  | nil =>
      intro ms h m hm
      unfold collectCond at h
      rw [← Except.ok.inj h] at hm
      simp at hm
  | cons g t ih =>
      intro ms h m hm
      obtain ⟨g1, g2, g3⟩ := g
      unfold collectCond at h
      cases h1 : mutationOfCondMatch mk g1 g2 g3 with
      | error e => rw [h1] at h; exact absurd h (by simp)
      | ok m? =>
          rw [h1] at h
          cases h2 : collectCond mk t with
          | error e => rw [h2] at h; exact absurd h (by simp)
          | ok rest =>
              rw [h2] at h
              have hms := Except.ok.inj h
              cases m? with
              | some m0 =>
                  rw [← hms] at hm
                  rcases List.mem_cons.mp hm with heq | hmem
                  · obtain ⟨a, b, c, habc⟩ :=
                      mutationOfCondMatch_shape mk g1 g2 g3 (some m0) h1 m0 rfl
                    rw [heq, habc]
                    exact hp a b c
                  · exact ih rest h2 m hmem
              | none =>
                  rw [← hms] at hm
                  exact ih rest h2 m hm

/-- Claim C6 (confirmed): the parser's output is grouped by command kind
— all Adjust mutations first, then all Set mutations, then all Remove
mutations (each scan's own left-to-right order within its kind). -/
theorem c6_grouped_by_kind (body : String) (l : List Mutation)
    (h : parseAdjustmentCommands body = Except.ok l) :
    l = l.filter isAdjust ++ l.filter isSet ++ l.filter isRemove := by
  simp only [parseAdjustmentCommands] at h
  cases h1 : collectCond Mutation.adjust
      (finditerCmd ['A', 'D', 'J', 'U', 'S', 'T'] body.toList.length body.toList) with
  | error e => rw [h1] at h; exact absurd h (by simp)
  | ok as =>
      rw [h1] at h
      cases h2 : collectCond Mutation.set
          (finditerCmd ['S', 'E', 'T'] body.toList.length body.toList) with
      | error e => rw [h2] at h; exact absurd h (by simp)
      | ok ss =>
          rw [h2] at h
          have hl := Except.ok.inj h
          have has : ∀ m ∈ as, isAdjust m = true :=
            collectCond_all Mutation.adjust isAdjust (fun a b c => rfl) _ as h1
          have hss : ∀ m ∈ ss, isSet m = true :=
            collectCond_all Mutation.set isSet (fun a b c => rfl) _ ss h2
          set rs := (finditerRemove body.toList.length body.toList).map
            (fun r => Mutation.remove (upperStr r.1) (lowerStr r.2.1) r.2.2) with hrs
          have hrr : ∀ m ∈ rs, isRemove m = true := by
            intro m hmem
            rw [hrs] at hmem
            obtain ⟨r, _, hr⟩ := List.mem_map.mp hmem
            rw [← hr]
            rfl
          rw [← hl]
          have hfa : List.filter isAdjust (as ++ ss ++ rs) = as := by
            rw [List.filter_append, List.filter_append]
            rw [List.filter_eq_self.mpr has]
            rw [List.filter_eq_nil_iff.mpr
              (fun m hm => by simp [((kinds_disjoint m).2.1 (hss m hm)).1])]
            rw [List.filter_eq_nil_iff.mpr
              (fun m hm => by simp [((kinds_disjoint m).2.2 (hrr m hm)).1])]
            simp
          have hfs : List.filter isSet (as ++ ss ++ rs) = ss := by
            rw [List.filter_append, List.filter_append]
            rw [List.filter_eq_self.mpr hss]
            rw [List.filter_eq_nil_iff.mpr
              (fun m hm => by simp [((kinds_disjoint m).1 (has m hm)).1])]
            rw [List.filter_eq_nil_iff.mpr
              (fun m hm => by simp [((kinds_disjoint m).2.2 (hrr m hm)).2])]
            simp
          have hfr : List.filter isRemove (as ++ ss ++ rs) = rs := by
            rw [List.filter_append, List.filter_append]
            rw [List.filter_eq_self.mpr hrr]
            rw [List.filter_eq_nil_iff.mpr
              (fun m hm => by simp [((kinds_disjoint m).1 (has m hm)).2])]
            rw [List.filter_eq_nil_iff.mpr
              (fun m hm => by simp [((kinds_disjoint m).2.1 (hss m hm)).2])]
            simp
          rw [hfa, hfs, hfr]

/-- Witness for C6 at a concrete body whose commands appear in the input
in the order REMOVE, SET, ADJUST but are emitted grouped by kind. -/
theorem c6_grouped_by_kind_witness :
    [Mutation.adjust "USD" "cash_buying_rate" (Condition.mk none (some 3)),
     Mutation.set "JPY" "spot_selling_rate" (Condition.mk (some 2) none),
     Mutation.remove "USD" "spot_buying_rate" CondField.min]
    = ([Mutation.adjust "USD" "cash_buying_rate" (Condition.mk none (some 3)),
        Mutation.set "JPY" "spot_selling_rate" (Condition.mk (some 2) none),
        Mutation.remove "USD" "spot_buying_rate" CondField.min].filter isAdjust)
      ++ ([Mutation.adjust "USD" "cash_buying_rate" (Condition.mk none (some 3)),
           Mutation.set "JPY" "spot_selling_rate" (Condition.mk (some 2) none),
           Mutation.remove "USD" "spot_buying_rate" CondField.min].filter isSet)
      ++ ([Mutation.adjust "USD" "cash_buying_rate" (Condition.mk none (some 3)),
           Mutation.set "JPY" "spot_selling_rate" (Condition.mk (some 2) none),
           Mutation.remove "USD" "spot_buying_rate" CondField.min].filter isRemove) :=
  c6_grouped_by_kind
    "REMOVE USD spot_buying_rate min\nSET JPY spot_selling_rate min 2\nADJUST USD cash_buying_rate max 3"
    _ (by rfl)
